import Mathlib

/-!
Verification of the motion-timing core of the printipi repository:
the axis-stepper time-selection protocol (src/motion/axisstepper.h)
and the reference hardware scheduler (src/drivers/rpi/dumbhardwarescheduler.h).

Floating-point times are modelled by an idealized value type `FVal` with
exact rationals plus the two infinities and a not-a-number value; the
comparison operators mirror IEEE semantics (any comparison involving NaN
is false), which is all the source relies on.
-/

namespace Printipi

/-- Idealized floating-point value: NaN, the infinities, or a finite rational. -/
inductive FVal where
  | nan
  | negInf
  | posInf
  | fin (q : ℚ)
deriving DecidableEq, Repr

namespace FVal

/-- IEEE isnan test, mirroring std::isnan in the source. -/
def isnan : FVal → Bool
  | nan => true
  | _ => false

/-- IEEE strict less-than: false whenever either operand is NaN. -/
def lt : FVal → FVal → Bool
  | nan, _ => false
  | _, nan => false
  | negInf, negInf => false
  | negInf, _ => true
  | posInf, _ => false
  | fin _, negInf => false
  | fin _, posInf => true
  | fin a, fin b => decide (a < b)

/-- IEEE less-than-or-equal: false whenever either operand is NaN. -/
def le : FVal → FVal → Bool
  | nan, _ => false
  | _, nan => false
  | negInf, _ => true
  | posInf, posInf => true
  | posInf, _ => false
  | fin _, negInf => false
  | fin _, posInf => true
  | fin a, fin b => decide (a ≤ b)

/-- A value is positive when it is neither NaN nor non-positive: +inf or a rational above zero. -/
def isPos : FVal → Bool
  | posInf => true
  | fin q => decide (0 < q)
  | _ => false

end FVal

/-- Direction of the next step, from the source enum StepDirection. -/
inductive StepDirection where
  | stepBackward
  | stepForward
deriving DecidableEq, Repr

/-- The AxisStepper base-class state: axis identity, time of next step, direction of next step. -/
structure AxisStepper where
  index : Nat
  time : FVal
  direction : StepDirection
deriving DecidableEq, Repr

instance : Inhabited AxisStepper := ⟨⟨0, FVal.fin 0, StepDirection.stepForward⟩⟩

/-- Time field of the axis at tuple position i of the set. -/
def tmOf (axes : List AxisStepper) (i : Nat) : FVal :=
  (axes.getD i default).time

/-- The recursive helper selecting, among tuple positions 0..idx, the position of the
AxisStepper the source's comparison chain keeps; returns the winning tuple position.
Mirrors struct template _AxisStepper__getNextTime (and its idx = 0 base specialization). -/
def _AxisStepper__getNextTime (axes : List AxisStepper) : Nat → Nat
  | 0 => 0
  | idx+1 =>
    let i1 := _AxisStepper__getNextTime axes idx
    let m1 := axes.getD i1 default
    let m2 := axes.getD (idx+1) default
    if m1.time.le (FVal.fin 0) then idx+1
    else if m2.time.le (FVal.fin 0) then i1
    else if m1.time.lt m2.time || m2.time.isnan then i1
    else idx+1

/-- AxisStepper::getNextTime: runs the helper over the whole set (positions 0..size-1)
and yields the tuple position of the selected axis. -/
def getNextTime (axes : List AxisStepper) : Nat :=
  _AxisStepper__getNextTime axes (axes.length - 1)

/-- DumbHardwareScheduler::schedTime: returns the requested event time unchanged. -/
def schedTime (evtTime : ℚ) : ℚ :=
  evtTime

/-- Modelled from the spec: common/tupleutil.h (callOnAll) is not under src/. Per the
source comment on the _AxisStepper__nextStep functor ("this iterates through all
steppers and checks if their index is equal to the index of the desired stepper") and
spec section 4.2 ("a single pass that checks each axis's identity against the target"),
callOnAll applies the given functor to every element of the collection together with
that element's tuple position. This is its worker, carrying the running position. -/
def callOnAllFrom (f : Nat → AxisStepper → AxisStepper) :
    Nat → List AxisStepper → List AxisStepper
  | _, [] => []
  | i, s :: rest => f i s :: callOnAllFrom f (i+1) rest

/-- Modelled from the spec: callOnAll applies the functor to each element of the set
together with its tuple position, starting from position 0. -/
def callOnAll (f : Nat → AxisStepper → AxisStepper) (axes : List AxisStepper) :
    List AxisStepper :=
  callOnAllFrom f 0 axes

/-- The functor struct _AxisStepper__nextStep: advances a stepper exactly when the
desired index equals that stepper's tuple position, else leaves it unchanged. The
per-axis advance _nextStep is overridden outside src/ and is abstracted as adv. -/
def _AxisStepper__nextStep (adv : AxisStepper → Bool → AxisStepper)
    (desiredIdx : Nat) (useEndstops : Bool) (myIdx : Nat) (stepper : AxisStepper) :
    AxisStepper :=
  if desiredIdx = myIdx then adv stepper useEndstops else stepper

/-- AxisStepper::nextStep: callOnAll over the set with the _AxisStepper__nextStep
functor and the desired axis index. -/
def nextStep (adv : AxisStepper → Bool → AxisStepper) (axes : List AxisStepper)
    (desiredIdx : Nat) (useEndstops : Bool) : List AxisStepper :=
  callOnAll (_AxisStepper__nextStep adv desiredIdx useEndstops) axes

/-- The functor struct _AxisStepper__initAxisSteppers: calls beginLine and then
_nextStep(useEndstops) on the stepper at each position. beginLine and _nextStep are
implemented outside src/ and are abstracted as beginLine (taking the bundled line
parameters: coordinate map, current position, velocity) and adv. -/
def _AxisStepper__initAxisSteppers {P : Type} (beginLine : AxisStepper → P → AxisStepper)
    (adv : AxisStepper → Bool → AxisStepper) (useEndstops : Bool) (p : P)
    (_myIdx : Nat) (stepper : AxisStepper) : AxisStepper :=
  adv (beginLine stepper p) useEndstops

/-- AxisStepper::initAxisSteppers: callOnAll over the set with the line-init functor. -/
def initAxisSteppers {P : Type} (beginLine : AxisStepper → P → AxisStepper)
    (adv : AxisStepper → Bool → AxisStepper) (steppers : List AxisStepper)
    (useEndstops : Bool) (p : P) : List AxisStepper :=
  callOnAll (_AxisStepper__initAxisSteppers beginLine adv useEndstops p) steppers

/-- The functor struct _AxisStepper__initAxisArcSteppers: calls beginArc and then
_nextStep(useEndstops) on the stepper at each position. beginArc is abstracted as a
function of the stepper and the bundled arc parameters (map, position, center, the two
basis vectors, radius, angular velocity, extrusion velocity). -/
def _AxisStepper__initAxisArcSteppers {Q : Type} (beginArc : AxisStepper → Q → AxisStepper)
    (adv : AxisStepper → Bool → AxisStepper) (useEndstops : Bool) (q : Q)
    (_myIdx : Nat) (stepper : AxisStepper) : AxisStepper :=
  adv (beginArc stepper q) useEndstops

/-- AxisStepper::initAxisArcSteppers: callOnAll over the set with the arc-init functor. -/
def initAxisArcSteppers {Q : Type} (beginArc : AxisStepper → Q → AxisStepper)
    (adv : AxisStepper → Bool → AxisStepper) (steppers : List AxisStepper)
    (useEndstops : Bool) (q : Q) : List AxisStepper :=
  callOnAll (_AxisStepper__initAxisArcSteppers beginArc adv useEndstops q) steppers

/-- A sample per-axis advance used only to instantiate theorems on concrete inputs:
it visibly changes the stepper's time. -/
def bumpTime (s : AxisStepper) (_useEndstops : Bool) : AxisStepper :=
  { s with time := FVal.fin 42 }

/-- A sample beginLine/beginArc trajectory initializer used only to instantiate
theorems on concrete inputs. -/
def setTimeSeven (s : AxisStepper) (_p : Unit) : AxisStepper :=
  { s with time := FVal.fin 7 }

/-- Invariant of the selection recursion over tuple positions 0..k, for result
position r: r is in range; r holds a positive time exactly when some position up to k
does; and when it does, r's time is a minimum among the positive times up to k and
every later position up to k with a positive time is strictly greater (the scan
displaces the running winner on ties). -/
def SelSpec (axes : List AxisStepper) (k r : Nat) : Prop :=
  r ≤ k ∧
  ((tmOf axes r).isPos = true ↔ ∃ i, i ≤ k ∧ (tmOf axes i).isPos = true) ∧
  ((tmOf axes r).isPos = true →
    (∀ i, i ≤ k → (tmOf axes i).isPos = true →
      (tmOf axes r).le (tmOf axes i) = true) ∧
    (∀ j, r < j → j ≤ k → (tmOf axes j).isPos = true →
      (tmOf axes j).le (tmOf axes r) = false))

/-! Order lemmas for the idealized floating-point comparisons. -/

lemma FVal.nan_lt (y : FVal) : FVal.nan.lt y = false := by
  cases y <;> rfl

lemma FVal.le_refl_of_isnan_eq_false {x : FVal} (h : x.isnan = false) : x.le x = true := by
  cases x <;> simp_all [FVal.le, FVal.isnan]

lemma FVal.le_trans' {x y z : FVal} (h1 : x.le y = true) (h2 : y.le z = true) :
    x.le z = true := by
  cases x <;> cases y <;> cases z <;> simp_all [FVal.le]
  exact le_trans h1 h2

lemma FVal.le_antisymm' {x y : FVal} (h1 : x.le y = true) (h2 : y.le x = true) : x = y := by
  cases x <;> cases y <;> simp_all [FVal.le]
  exact le_antisymm h1 h2

lemma FVal.lt_imp_le {x y : FVal} (h : x.lt y = true) : x.le y = true := by
  cases x <;> cases y <;> simp_all [FVal.lt, FVal.le]
  exact le_of_lt h

lemma FVal.lt_imp_not_le {x y : FVal} (h : x.lt y = true) : y.le x = false := by
  cases x <;> cases y <;> simp_all [FVal.lt, FVal.le]

lemma FVal.not_lt_imp_le {x y : FVal} (hx : x.isnan = false) (hy : y.isnan = false)
    (h : x.lt y = false) : y.le x = true := by
  cases x <;> cases y <;> simp_all [FVal.lt, FVal.le, FVal.isnan]

lemma FVal.isPos_iff {x : FVal} :
    x.isPos = true ↔ x.isnan = false ∧ x.le (FVal.fin 0) = false := by
  cases x <;> simp [FVal.isPos, FVal.isnan, FVal.le]

lemma FVal.isnan_lt {x y : FVal} (h : x.isnan = true) : x.lt y = false := by
  cases x <;> cases y <;> simp_all [FVal.isnan, FVal.lt]

/-! Step lemmas for the selection invariant. -/

lemma selSpec_zero (axes : List AxisStepper) : SelSpec axes 0 0 := by
  refine ⟨le_refl 0, ?_, ?_⟩
  · constructor
    · intro h; exact ⟨0, le_refl 0, h⟩
    · rintro ⟨i, hi, hp⟩
      have hz : i = 0 := Nat.le_zero.mp hi
      rwa [hz] at hp
  · intro hpos
    refine ⟨?_, ?_⟩
    · intro i hi hp
      have hz : i = 0 := Nat.le_zero.mp hi
      subst hz
      exact FVal.le_refl_of_isnan_eq_false (FVal.isPos_iff.mp hpos).1
    · intro j hj1 hj2 _
      omega

lemma selSpec_keep (axes : List AxisStepper) (k r : Nat) (ih : SelSpec axes k r)
    (h2 : (tmOf axes (k+1)).isPos ≠ true) : SelSpec axes (k+1) r := by
  obtain ⟨ihA, ihB, ihC⟩ := ih
  refine ⟨ihA.trans (Nat.le_succ k), ?_, ?_⟩
  · constructor
    · intro h
      obtain ⟨i, hi, hp⟩ := ihB.mp h
      exact ⟨i, hi.trans (Nat.le_succ k), hp⟩
    · rintro ⟨i, hi, hp⟩
      by_cases hik : i ≤ k
      · exact ihB.mpr ⟨i, hik, hp⟩
      · have he : i = k+1 := by omega
        subst he
        exact absurd hp h2
  · intro hpos
    obtain ⟨ihmin, ihmax⟩ := ihC hpos
    refine ⟨?_, ?_⟩
    · intro i hi hp
      by_cases hik : i ≤ k
      · exact ihmin i hik hp
      · have he : i = k+1 := by omega
        subst he
        exact absurd hp h2
    · intro j hj1 hj2 hp
      by_cases hjk : j ≤ k
      · exact ihmax j hj1 hjk hp
      · have he : j = k+1 := by omega
        subst he
        exact absurd hp h2

lemma selSpec_switch_empty (axes : List AxisStepper) (k r : Nat) (ih : SelSpec axes k r)
    (h1 : (tmOf axes r).isPos ≠ true) : SelSpec axes (k+1) (k+1) := by
  obtain ⟨ihA, ihB, ihC⟩ := ih
  have hnone : ∀ i, i ≤ k → (tmOf axes i).isPos = true → False := by
    intro i hi hp
    exact h1 (ihB.mpr ⟨i, hi, hp⟩)
  refine ⟨le_refl _, ?_, ?_⟩
  · constructor
    · intro h; exact ⟨k+1, le_refl _, h⟩
    · rintro ⟨i, hi, hp⟩
      by_cases hik : i ≤ k
      · exact (hnone i hik hp).elim
      · have he : i = k+1 := by omega
        rwa [he] at hp
  · intro hpos
    refine ⟨?_, ?_⟩
    · intro i hi hp
      by_cases hik : i ≤ k
      · exact (hnone i hik hp).elim
      · have he : i = k+1 := by omega
        subst he
        exact FVal.le_refl_of_isnan_eq_false (FVal.isPos_iff.mp hpos).1
    · intro j hj1 hj2 _
      omega

lemma selSpec_keep_lt (axes : List AxisStepper) (k r : Nat) (ih : SelSpec axes k r)
    (hp1 : (tmOf axes r).isPos = true)
    (hlt : (tmOf axes r).lt (tmOf axes (k+1)) = true) : SelSpec axes (k+1) r := by
  obtain ⟨ihA, ihB, ihC⟩ := ih
  obtain ⟨ihmin, ihmax⟩ := ihC hp1
  refine ⟨ihA.trans (Nat.le_succ k), ?_, ?_⟩
  · constructor
    · intro h
      obtain ⟨i, hi, hp⟩ := ihB.mp h
      exact ⟨i, hi.trans (Nat.le_succ k), hp⟩
    · intro _
      exact hp1
  · intro _
    refine ⟨?_, ?_⟩
    · intro i hi hp
      by_cases hik : i ≤ k
      · exact ihmin i hik hp
      · have he : i = k+1 := by omega
        subst he
        exact FVal.lt_imp_le hlt
    · intro j hj1 hj2 hp
      by_cases hjk : j ≤ k
      · exact ihmax j hj1 hjk hp
      · have he : j = k+1 := by omega
        subst he
        exact FVal.lt_imp_not_le hlt

lemma selSpec_switch_le (axes : List AxisStepper) (k r : Nat) (ih : SelSpec axes k r)
    (hp1 : (tmOf axes r).isPos = true) (hp2 : (tmOf axes (k+1)).isPos = true)
    (hge : (tmOf axes (k+1)).le (tmOf axes r) = true) : SelSpec axes (k+1) (k+1) := by
  obtain ⟨ihA, ihB, ihC⟩ := ih
  obtain ⟨ihmin, ihmax⟩ := ihC hp1
  refine ⟨le_refl _, ?_, ?_⟩
  · constructor
    · intro h; exact ⟨k+1, le_refl _, h⟩
    · intro _
      exact hp2
  · intro _
    refine ⟨?_, ?_⟩
    · intro i hi hp
      by_cases hik : i ≤ k
      · exact FVal.le_trans' hge (ihmin i hik hp)
      · have he : i = k+1 := by omega
        subst he
        exact FVal.le_refl_of_isnan_eq_false (FVal.isPos_iff.mp hp2).1
    · intro j hj1 hj2 _
      omega

/-- The selection recursion satisfies its invariant at every level. -/
lemma getNextTime_go_spec (axes : List AxisStepper) :
    ∀ k : Nat, SelSpec axes k (_AxisStepper__getNextTime axes k) := by
  intro k
  induction k with
  | zero => exact selSpec_zero axes
  | succ k ih =>
    have hunfold : _AxisStepper__getNextTime axes (k+1) =
        (if (tmOf axes (_AxisStepper__getNextTime axes k)).le (FVal.fin 0) then k+1
         else if (tmOf axes (k+1)).le (FVal.fin 0) then _AxisStepper__getNextTime axes k
         else if (tmOf axes (_AxisStepper__getNextTime axes k)).lt (tmOf axes (k+1))
             || (tmOf axes (k+1)).isnan then _AxisStepper__getNextTime axes k
         else k+1) := rfl
    rw [hunfold]
    split
    · rename_i h1
      apply selSpec_switch_empty axes k _ ih
      intro hp
      rw [(FVal.isPos_iff.mp hp).2] at h1
      exact Bool.false_ne_true h1
    · rename_i h1
      rw [Bool.not_eq_true] at h1
      split
      · rename_i h2
        apply selSpec_keep axes k _ ih
        intro hp
        rw [(FVal.isPos_iff.mp hp).2] at h2
        exact Bool.false_ne_true h2
      · rename_i h2
        rw [Bool.not_eq_true] at h2
        split
        · rename_i h3
          simp only [Bool.or_eq_true] at h3
          rcases h3 with hlt | hnan
          · have hn1 : (tmOf axes (_AxisStepper__getNextTime axes k)).isnan = false := by
              cases hn : (tmOf axes (_AxisStepper__getNextTime axes k)).isnan
              · rfl
              · rw [FVal.isnan_lt hn] at hlt
                exact (Bool.false_ne_true hlt).elim
            exact selSpec_keep_lt axes k _ ih (FVal.isPos_iff.mpr ⟨hn1, h1⟩) hlt
          · apply selSpec_keep axes k _ ih
            intro hp
            rw [(FVal.isPos_iff.mp hp).1] at hnan
            exact Bool.false_ne_true hnan
        · rename_i h3
          rw [Bool.not_eq_true, Bool.or_eq_false_iff] at h3
          obtain ⟨hlt, hnan⟩ := h3
          have hp2 : (tmOf axes (k+1)).isPos = true := FVal.isPos_iff.mpr ⟨hnan, h2⟩
          cases hn1 : (tmOf axes (_AxisStepper__getNextTime axes k)).isnan
          · have hp1 : (tmOf axes (_AxisStepper__getNextTime axes k)).isPos = true :=
              FVal.isPos_iff.mpr ⟨hn1, h1⟩
            exact selSpec_switch_le axes k _ ih hp1 hp2
              (FVal.not_lt_imp_le hn1 hnan hlt)
          · apply selSpec_switch_empty axes k _ ih
            intro hp
            rw [(FVal.isPos_iff.mp hp).1] at hn1
            exact Bool.false_ne_true hn1

/-! Pointwise description of callOnAll. -/

lemma callOnAllFrom_length (f : Nat → AxisStepper → AxisStepper) :
    ∀ (s : Nat) (l : List AxisStepper), (callOnAllFrom f s l).length = l.length := by
  intro s l
  induction l generalizing s with
  | nil => rfl
  | cons a t ih => simp [callOnAllFrom, ih]

lemma callOnAllFrom_getD (f : Nat → AxisStepper → AxisStepper) :
    ∀ (s : Nat) (l : List AxisStepper) (j : Nat), j < l.length →
      (callOnAllFrom f s l).getD j default = f (s + j) (l.getD j default) := by
  intro s l
  induction l generalizing s with
  | nil =>
    intro j hj
    simp at hj
  | cons a t ih =>
    intro j hj
    cases j with
    | zero =>
      simp [callOnAllFrom]
    | succ j =>
      have ht : j < t.length := by
        simpa [Nat.succ_lt_succ_iff] using hj
      have hrec := ih (s+1) j ht
      have harith : s + 1 + j = s + (j + 1) := by omega
      calc (callOnAllFrom f s (a :: t)).getD (j+1) default
          = (callOnAllFrom f (s+1) t).getD j default := by
            simp [callOnAllFrom]
        _ = f (s + 1 + j) (t.getD j default) := hrec
        _ = f (s + (j+1)) ((a :: t).getD (j+1) default) := by
            rw [harith, List.getD_cons_succ]

lemma callOnAllFrom_nextStep_noop (adv : AxisStepper → Bool → AxisStepper) (d : Nat)
    (u : Bool) {s : Nat} {l : List AxisStepper} (h : ∀ i, i < l.length → d ≠ s + i) :
    callOnAllFrom (_AxisStepper__nextStep adv d u) s l = l := by
  induction l generalizing s with
  | nil => rfl
  | cons a t ih =>
    have h0 : d ≠ s := by
      have := h 0 (by simp)
      omega
    have htail : callOnAllFrom (_AxisStepper__nextStep adv d u) (s+1) t = t := by
      apply ih
      intro i hi
      have := h (i+1) (by simpa using Nat.succ_lt_succ hi)
      omega
    simp [callOnAllFrom, _AxisStepper__nextStep, if_neg h0, htail]

/-- Two-axis specialization of the selection chain, by unfolding the recursion. -/
lemma getNextTime_pair (a b : AxisStepper) :
    getNextTime [a, b] =
      (if a.time.le (FVal.fin 0) then 1
       else if b.time.le (FVal.fin 0) then 0
       else if a.time.lt b.time || b.time.isnan then 0 else 1) := rfl

/-! Claim theorems. -/

/-- C1: for a two-axis set whose two times are finite, positive and distinct,
getNextTime selects the axis with the smaller time, in whichever tuple position it
sits: the selected position is 0 exactly when the first time is smaller, and the
selected stepper is the one carrying the smaller time. -/
theorem getNextTime_two_distinct (a b : AxisStepper) (p q : ℚ)
    (ha : a.time = FVal.fin p) (hb : b.time = FVal.fin q)
    (hp : 0 < p) (hq : 0 < q) (_hne : p ≠ q) :
    getNextTime [a, b] = (if p < q then 0 else 1) ∧
    ([a, b].getD (getNextTime [a, b]) default) = (if p < q then a else b) := by
  have hidx : getNextTime [a, b] = (if p < q then 0 else 1) := by
    rw [getNextTime_pair, ha, hb]
    simp only [FVal.le, FVal.lt, FVal.isnan, Bool.or_false, decide_eq_true_eq]
    rw [if_neg (not_le.mpr hp), if_neg (not_le.mpr hq)]
  refine ⟨hidx, ?_⟩
  rw [hidx]
  by_cases hpq : p < q
  · rw [if_pos hpq, if_pos hpq]
    rfl
  · rw [if_neg hpq, if_neg hpq]
    rfl

/-- Witness for C1 at times 1 and 2. -/
theorem getNextTime_two_distinct_w :
    getNextTime [⟨0, FVal.fin 1, .stepForward⟩, ⟨1, FVal.fin 2, .stepForward⟩] =
      (if (1:ℚ) < 2 then 0 else 1) ∧
    (([⟨0, FVal.fin 1, .stepForward⟩, ⟨1, FVal.fin 2, .stepForward⟩] : List AxisStepper).getD
      (getNextTime [⟨0, FVal.fin 1, .stepForward⟩, ⟨1, FVal.fin 2, .stepForward⟩]) default) =
      (if (1:ℚ) < 2 then ⟨0, FVal.fin 1, .stepForward⟩ else ⟨1, FVal.fin 2, .stepForward⟩) :=
  getNextTime_two_distinct _ _ 1 2 rfl rfl (by norm_num) (by norm_num) (by norm_num)

/-- Counterexample to C2: both axes carry the same smallest finite positive time 5,
yet getNextTime returns tuple position 1, not the lowest position 0 — the comparison
chain keeps the second operand on ties. -/
theorem getNextTime_tie_counterexample :
    getNextTime [⟨0, FVal.fin 5, .stepForward⟩, ⟨1, FVal.fin 5, .stepForward⟩] = 1 ∧
    getNextTime [⟨0, FVal.fin 5, .stepForward⟩, ⟨1, FVal.fin 5, .stepForward⟩] ≠ 0 := by
  decide

/-- C2 (amended): when two or more axes share the same smallest finite positive time
(every positive axis time being at least that value), getNextTime returns the axis at
the HIGHEST tuple position among those tied: the selected time equals the tied
minimum, and no later position carries that time. -/
theorem getNextTime_tie_highest (axes : List AxisStepper) (m : ℚ) (j1 j2 : Nat)
    (_hj12 : j1 < j2) (hj2 : j2 < axes.length)
    (_ht1 : tmOf axes j1 = FVal.fin m) (ht2 : tmOf axes j2 = FVal.fin m)
    (hm : 0 < m)
    (hmin : ∀ i, i < axes.length → (tmOf axes i).isPos = true →
      (FVal.fin m).le (tmOf axes i) = true) :
    tmOf axes (getNextTime axes) = FVal.fin m ∧
    ∀ j, getNextTime axes < j → j < axes.length → tmOf axes j ≠ FVal.fin m := by
  have hlpos : 0 < axes.length := Nat.lt_of_le_of_lt (Nat.zero_le j2) hj2
  simp only [getNextTime]
  obtain ⟨hA, hB, hC⟩ := getNextTime_go_spec axes (axes.length - 1)
  have hp2 : (tmOf axes j2).isPos = true := by
    rw [ht2]
    simp [FVal.isPos, hm]
  have hwpos : (tmOf axes (_AxisStepper__getNextTime axes (axes.length - 1))).isPos = true :=
    hB.mpr ⟨j2, by omega, hp2⟩
  obtain ⟨hmin', hmax'⟩ := hC hwpos
  have hwle : (tmOf axes (_AxisStepper__getNextTime axes (axes.length - 1))).le
      (FVal.fin m) = true := by
    have h := hmin' j2 (by omega) hp2
    rwa [ht2] at h
  have hlew : (FVal.fin m).le
      (tmOf axes (_AxisStepper__getNextTime axes (axes.length - 1))) = true :=
    hmin _ (by omega) hwpos
  have heq : tmOf axes (_AxisStepper__getNextTime axes (axes.length - 1)) = FVal.fin m :=
    FVal.le_antisymm' hwle hlew
  refine ⟨heq, ?_⟩
  intro j hja hjb hjeq
  have hpj : (tmOf axes j).isPos = true := by
    rw [hjeq]
    simp [FVal.isPos, hm]
  have hcon := hmax' j hja (by omega) hpj
  rw [hjeq, heq] at hcon
  have hrefl : (FVal.fin m).le (FVal.fin m) = true :=
    FVal.le_refl_of_isnan_eq_false rfl
  rw [hrefl] at hcon
  exact Bool.noConfusion hcon

/-- Witness for the amended C2: a tie at time 5 across positions 0 and 1 selects a
position holding time 5. -/
theorem getNextTime_tie_highest_w :
    tmOf [⟨0, FVal.fin 5, .stepForward⟩, ⟨1, FVal.fin 5, .stepForward⟩]
      (getNextTime [⟨0, FVal.fin 5, .stepForward⟩, ⟨1, FVal.fin 5, .stepForward⟩]) =
      FVal.fin 5 :=
  (getNextTime_tie_highest
    [⟨0, FVal.fin 5, .stepForward⟩, ⟨1, FVal.fin 5, .stepForward⟩] 5 0 1
    (by norm_num) (by norm_num) rfl rfl (by norm_num)
    (by
      intro i hi hp
      have hlen : ([⟨0, FVal.fin 5, .stepForward⟩,
          ⟨1, FVal.fin 5, .stepForward⟩] : List AxisStepper).length = 2 := rfl
      rw [hlen] at hi
      have h01 : i = 0 ∨ i = 1 := by omega
      rcases h01 with h | h <;> subst h <;> decide)).1

/-- Counterexample to C3: the set holds one axis with a non-NaN (non-positive) time
and one NaN axis, yet getNextTime returns the NaN axis — a non-positive time yields
unconditionally to the other operand, NaN included. -/
theorem getNextTime_nan_selected_counterexample :
    (tmOf [⟨0, FVal.fin 0, .stepForward⟩, ⟨1, FVal.nan, .stepForward⟩]
      (getNextTime [⟨0, FVal.fin 0, .stepForward⟩, ⟨1, FVal.nan, .stepForward⟩])).isnan
      = true ∧
    (tmOf [⟨0, FVal.fin 0, .stepForward⟩, ⟨1, FVal.nan, .stepForward⟩] 0).isnan = false := by
  decide

/-- C3 (amended): for every axis set containing at least one axis whose time is
positive (neither NaN nor non-positive), getNextTime never returns an axis whose
time is NaN. -/
theorem getNextTime_no_nan_of_pos (axes : List AxisStepper) (i : Nat)
    (hi : i < axes.length) (hp : (tmOf axes i).isPos = true) :
    (tmOf axes (getNextTime axes)).isnan = false := by
  have hlpos : 0 < axes.length := Nat.lt_of_le_of_lt (Nat.zero_le i) hi
  simp only [getNextTime]
  obtain ⟨hA, hB, hC⟩ := getNextTime_go_spec axes (axes.length - 1)
  have hw := hB.mpr ⟨i, by omega, hp⟩
  exact (FVal.isPos_iff.mp hw).1

/-- Witness for the amended C3: with a positive time at position 0, the selected
time is not NaN. -/
theorem getNextTime_no_nan_of_pos_w :
    (tmOf [⟨0, FVal.fin 1, .stepForward⟩, ⟨1, FVal.nan, .stepForward⟩]
      (getNextTime [⟨0, FVal.fin 1, .stepForward⟩, ⟨1, FVal.nan, .stepForward⟩])).isnan
      = false :=
  getNextTime_no_nan_of_pos [⟨0, FVal.fin 1, .stepForward⟩, ⟨1, FVal.nan, .stepForward⟩]
    0 (by norm_num) (by decide)

/-- C4: in a two-axis set where one time is non-positive (time <= 0 in the source's
comparison) and the other is finite positive, getNextTime selects the finite-positive
axis, in both tuple orders. -/
theorem getNextTime_nonpos_vs_pos (a b : AxisStepper) (q : ℚ)
    (ha : a.time.le (FVal.fin 0) = true) (hb : b.time = FVal.fin q) (hq : 0 < q) :
    getNextTime [a, b] = 1 ∧ getNextTime [b, a] = 0 := by
  have hbn : b.time.le (FVal.fin 0) = false := by
    rw [hb]
    simp only [FVal.le]
    exact decide_eq_false_iff_not.mpr (not_le.mpr hq)
  constructor
  · rw [getNextTime_pair, if_pos ha]
  · rw [getNextTime_pair, if_neg (by simp [hbn]), if_pos ha]

/-- Witness for C4 with times 0 and 3. -/
theorem getNextTime_nonpos_vs_pos_w :
    getNextTime [⟨0, FVal.fin 0, .stepForward⟩, ⟨1, FVal.fin 3, .stepForward⟩] = 1 ∧
    getNextTime [⟨1, FVal.fin 3, .stepForward⟩, ⟨0, FVal.fin 0, .stepForward⟩] = 0 :=
  getNextTime_nonpos_vs_pos ⟨0, FVal.fin 0, .stepForward⟩ ⟨1, FVal.fin 3, .stepForward⟩ 3
    (by decide) rfl (by norm_num)

/-- C5: in a two-axis set where one time is NaN and the other is finite positive,
getNextTime selects the finite-positive axis, in both tuple orders. -/
theorem getNextTime_nan_vs_pos (a b : AxisStepper) (q : ℚ)
    (ha : a.time = FVal.nan) (hb : b.time = FVal.fin q) (hq : 0 < q) :
    getNextTime [a, b] = 1 ∧ getNextTime [b, a] = 0 := by
  have hbn : b.time.le (FVal.fin 0) = false := by
    rw [hb]
    simp only [FVal.le]
    exact decide_eq_false_iff_not.mpr (not_le.mpr hq)
  have han : a.time.le (FVal.fin 0) = false := by
    rw [ha]
    rfl
  constructor
  · rw [getNextTime_pair, if_neg (by simp [han]), if_neg (by simp [hbn]),
      if_neg (by simp [ha, hb, FVal.lt, FVal.isnan])]
  · rw [getNextTime_pair, if_neg (by simp [hbn]), if_neg (by simp [han]),
      if_pos (by simp [ha, FVal.isnan])]

/-- Witness for C5 with NaN against time 2. -/
theorem getNextTime_nan_vs_pos_w :
    getNextTime [⟨0, FVal.nan, .stepForward⟩, ⟨1, FVal.fin 2, .stepForward⟩] = 1 ∧
    getNextTime [⟨1, FVal.fin 2, .stepForward⟩, ⟨0, FVal.nan, .stepForward⟩] = 0 :=
  getNextTime_nan_vs_pos ⟨0, FVal.nan, .stepForward⟩ ⟨1, FVal.fin 2, .stepForward⟩ 2
    rfl rfl (by norm_num)

/-- C6: nextStep with a target index leaves the length and every stepper at a tuple
position other than the target (its time and direction fields included) unchanged. -/
theorem nextStep_frame (adv : AxisStepper → Bool → AxisStepper)
    (axes : List AxisStepper) (d : Nat) (u : Bool) :
    (nextStep adv axes d u).length = axes.length ∧
    ∀ j, j < axes.length → j ≠ d →
      (nextStep adv axes d u).getD j default = axes.getD j default := by
  constructor
  · exact callOnAllFrom_length _ 0 axes
  · intro j hj hne
    have h := callOnAllFrom_getD (_AxisStepper__nextStep adv d u) 0 axes j hj
    rw [nextStep, callOnAll, h, Nat.zero_add]
    simp only [_AxisStepper__nextStep]
    rw [if_neg (fun he => hne he.symm)]

/-- Witness for C6: advancing position 1 leaves position 0 unchanged, with an advance
function that visibly changes the stepper it touches. -/
theorem nextStep_frame_w :
    (nextStep bumpTime [⟨0, FVal.fin 1, .stepForward⟩, ⟨1, FVal.fin 2, .stepForward⟩]
      1 true).getD 0 default =
    ([⟨0, FVal.fin 1, .stepForward⟩, ⟨1, FVal.fin 2, .stepForward⟩] :
      List AxisStepper).getD 0 default :=
  (nextStep_frame bumpTime
    [⟨0, FVal.fin 1, .stepForward⟩, ⟨1, FVal.fin 2, .stepForward⟩] 1 true).2 0
    (by norm_num) (by norm_num)

/-- Counterexample to C7: a desired index matching no tuple position makes nextStep
complete as a silent no-op (the set is returned unchanged), even though the advance
function would have visibly changed any stepper it was applied to; no assert or other
failure path exists in the source helper. -/
theorem nextStep_invalid_counterexample :
    nextStep bumpTime [⟨0, FVal.fin 1, .stepForward⟩] 5 true =
      [⟨0, FVal.fin 1, .stepForward⟩] ∧
    bumpTime ⟨0, FVal.fin 1, .stepForward⟩ true ≠ ⟨0, FVal.fin 1, .stepForward⟩ := by
  decide

/-- C7 (amended): nextStep with an axis index matching no tuple position is a silent
no-op: the set is returned unchanged and no runtime check rejects the call. -/
theorem nextStep_out_of_range_noop (adv : AxisStepper → Bool → AxisStepper)
    (axes : List AxisStepper) (d : Nat) (u : Bool) (h : axes.length ≤ d) :
    nextStep adv axes d u = axes := by
  rw [nextStep, callOnAll]
  apply callOnAllFrom_nextStep_noop
  intro i hi
  omega

/-- Witness for the amended C7: index 5 on a one-axis set leaves the set unchanged. -/
theorem nextStep_out_of_range_noop_w :
    nextStep bumpTime [⟨0, FVal.fin 1, .stepForward⟩] 5 true =
      [⟨0, FVal.fin 1, .stepForward⟩] :=
  nextStep_out_of_range_noop bumpTime [⟨0, FVal.fin 1, .stepForward⟩] 5 true
    (by norm_num)

/-- C8: initAxisSteppers applies beginLine followed by the first advance
(_nextStep with the given useEndstops flag) to every axis of the set, so every
position of the initialized set holds the advance of its begun stepper; and
initAxisArcSteppers does the same with beginArc. -/
theorem initAxisSteppers_begins_then_advances {P Q : Type}
    (beginLine : AxisStepper → P → AxisStepper) (beginArc : AxisStepper → Q → AxisStepper)
    (adv : AxisStepper → Bool → AxisStepper) (steppers : List AxisStepper)
    (u : Bool) (p : P) (q : Q) :
    ((initAxisSteppers beginLine adv steppers u p).length = steppers.length ∧
      ∀ i, i < steppers.length →
        (initAxisSteppers beginLine adv steppers u p).getD i default =
          adv (beginLine (steppers.getD i default) p) u) ∧
    ((initAxisArcSteppers beginArc adv steppers u q).length = steppers.length ∧
      ∀ i, i < steppers.length →
        (initAxisArcSteppers beginArc adv steppers u q).getD i default =
          adv (beginArc (steppers.getD i default) q) u) := by
  refine ⟨⟨callOnAllFrom_length _ 0 _, ?_⟩, ⟨callOnAllFrom_length _ 0 _, ?_⟩⟩
  · intro i hi
    have h := callOnAllFrom_getD (_AxisStepper__initAxisSteppers beginLine adv u p)
      0 steppers i hi
    rw [initAxisSteppers, callOnAll, h]
    rfl
  · intro i hi
    have h := callOnAllFrom_getD (_AxisStepper__initAxisArcSteppers beginArc adv u q)
      0 steppers i hi
    rw [initAxisArcSteppers, callOnAll, h]
    rfl

/-- Witness for C8: a one-axis set initialized with sample begin and advance
functions holds, at position 0, the advance of the begun stepper. -/
theorem initAxisSteppers_begins_then_advances_w :
    (initAxisSteppers setTimeSeven bumpTime [⟨0, FVal.fin 1, .stepForward⟩] true
      ()).getD 0 default =
    bumpTime (setTimeSeven
      (([⟨0, FVal.fin 1, .stepForward⟩] : List AxisStepper).getD 0 default) ()) true :=
  ((initAxisSteppers_begins_then_advances setTimeSeven setTimeSeven bumpTime
    [⟨0, FVal.fin 1, .stepForward⟩] true () ()).1).2 0 (by norm_num)

/-- C9: DumbHardwareScheduler.schedTime returns its input unchanged, hence a feasible
time at or after the requested time. -/
theorem schedTime_id (t : ℚ) : schedTime t = t ∧ t ≤ schedTime t :=
  ⟨rfl, le_refl t⟩

/-- C10: a single-axis set makes getNextTime return its sole axis (tuple position 0)
unconditionally, whatever its time value — non-positive or NaN included. -/
theorem getNextTime_singleton (a : AxisStepper) :
    getNextTime [a] = 0 ∧ ([a].getD (getNextTime [a]) default) = a :=
  ⟨rfl, rfl⟩

end Printipi
